import Mathlib

/-!
# Verification of the vector-clock server (`src/main.rs`)

Shallow embedding of the repository's core: the `VectorClock` operations
(`Server::increment`, `Server::update_clock`, `Server::new`), the send path
(`Server::send_event`), the inbound accept loop (`Server::handle_events`),
and the JSON message codec (`serde_json::to_string` / `serde_json::from_slice`
instantiated at `ServerMessage`).

Modelling conventions:
* `i32` clock entries are modelled as `Int`; arithmetic overflow of `+= 1`
  is a Rust program error (panic in debug builds) and is out of scope, while
  the `i32` *range* is modelled where it matters (the JSON number parser
  rejects out-of-range integers, as `serde_json` does for `i32`).
* Byte sequences on the wire are modelled as `List Char` (the messages are
  UTF-8 text; UTF-8 encoding of a Unicode scalar sequence is injective).
* Fallible operations return `Option`/`Except`; a Rust `unwrap`/`expect`
  panic is modelled by an explicit `panicked` outcome constructor.
* The serde_json codec for `ServerMessage` is modelled faithfully on the
  fragment of JSON it touches: the serializer emits
  `\x7b"sender_id":<escaped string>,"clock":[<i32>,<i32>,<i32>]\x7d` and the
  parser accepts the two known fields in either order, with JSON whitespace
  between tokens, string escapes (`\" \\ \/ \b \f \n \r \t \uXXXX`),
  rejection of unescaped control characters, of leading zeros, of wrong
  arities and of out-of-`i32`-range numbers, and a trailing-characters
  check after the top-level value.  (Unknown-field skipping and `\u`
  surrogate pairs are not modelled; no claim depends on them.)
-/

namespace VectorClockServer

/-! ## Clock operations (from `Server::increment`, `Server::update_clock`,
`Server::new` in `src/main.rs`) -/

/-- The vector clock `[i32; 3]`, modelled as a list of integers; the
length-3 invariant that Rust's array type enforces appears as a hypothesis
of the theorems. -/
abbrev VClock := List Int

/-- `Server::increment`: `self.clock[self.clock_index] += 1`. -/
def increment (own : Nat) (c : VClock) : VClock :=
  c.set own (c.getD own 0 + 1)

/-- The merge loop of `Server::update_clock`:
`for i in 0..3 \x7b self.clock[i] = self.clock[i].max(other_clock[i]); \x7d`. -/
def mergeMax (c other : VClock) : VClock :=
  List.zipWith max c other

/-- `Server::update_clock`: point-wise max with the received clock, then
`self.increment()`. -/
def update_clock (own : Nat) (c other : VClock) : VClock :=
  increment own (mergeMax c other)

/-- `Server::new`'s clock initialisation:
`let mut clock = [0; 3]; clock[clock_index] = 1;`. -/
def new_clock (clock_index : Nat) : VClock :=
  ([0, 0, 0] : VClock).set clock_index 1

/-- One abstract call on the clock: a local event (`Server::increment`, the
`"event"` command) or a merge of a received remote clock
(`Server::update_clock`). -/
inductive ClockOp where
  | localEvent : ClockOp
  | mergeReceived (remote : VClock) : ClockOp
deriving DecidableEq, Repr

/-- Apply one `ClockOp` to the clock of the server whose own index is `own`. -/
def applyOp (own : Nat) (c : VClock) : ClockOp → VClock
  | .localEvent => increment own c
  | .mergeReceived remote => update_clock own c remote

/-- Run a sequence of clock operations from left to right. -/
def runOps (own : Nat) (c : VClock) : List ClockOp → VClock
  | [] => c
  | op :: ops => runOps own (applyOp own c op) ops

/-- A remote clock in a `ClockOp` has the length Rust's `[i32; 3]` type
forces. -/
def opWellFormed : ClockOp → Prop
  | .localEvent => True
  | .mergeReceived remote => remote.length = 3

instance : DecidablePred opWellFormed := by
  intro op; cases op <;> simp [opWellFormed] <;> infer_instance

/-! ## The message type (from `struct ServerMessage` in `src/main.rs`) -/

/-- `ServerMessage \x7b sender_id: String, clock: VectorClock \x7d`.  The
`[i32; 3]` clock is a list; decoding only ever produces length-3 lists. -/
structure ServerMessage where
  sender_id : String
  clock : List Int
deriving DecidableEq, Repr

/-- A message that Rust's types could actually hold: a length-3 clock of
`i32`-range entries. -/
def msgWellFormed (m : ServerMessage) : Prop :=
  m.clock.length = 3 ∧ ∀ v ∈ m.clock, -2147483648 ≤ v ∧ v ≤ 2147483647

instance (m : ServerMessage) : Decidable (msgWellFormed m) := by
  unfold msgWellFormed; infer_instance

/-! ## JSON codec (model of `serde_json::to_string` / `serde_json::from_slice`
at `ServerMessage`, as used by `Server::send_event` and
`Server::handle_events`) -/

/-- JSON whitespace. -/
def isJsonWs (c : Char) : Bool :=
  c == ' ' || c == '\t' || c == '\n' || c == '\r'

/-- Skip leading JSON whitespace. -/
def skipWs : List Char → List Char
  | [] => []
  | c :: s => if isJsonWs c then skipWs s else c :: s

/-- The decimal digit characters, `0 ≤ d ≤ 9`. -/
def decDigitChar (d : Nat) : Char :=
  match d with
  | 0 => '0' | 1 => '1' | 2 => '2' | 3 => '3' | 4 => '4'
  | 5 => '5' | 6 => '6' | 7 => '7' | 8 => '8' | _ => '9'

/-- The lower-case hex digit characters serde_json uses in `\u00xx`
escapes. -/
def hexDigitChar (d : Nat) : Char :=
  match d with
  | 0 => '0' | 1 => '1' | 2 => '2' | 3 => '3' | 4 => '4'
  | 5 => '5' | 6 => '6' | 7 => '7' | 8 => '8' | 9 => '9'
  | 10 => 'a' | 11 => 'b' | 12 => 'c' | 13 => 'd' | 14 => 'e' | _ => 'f'

/-- Is `c` a hex digit (either case), as accepted in `\uXXXX` escapes? -/
def isHexChar (c : Char) : Bool :=
  c.isDigit || ('a' ≤ c && c ≤ 'f') || ('A' ≤ c && c ≤ 'F')

/-- Numeric value of a hex digit character. -/
def hexCharVal (c : Char) : Nat :=
  if c.isDigit then c.toNat - 48
  else if 'a' ≤ c && c ≤ 'f' then c.toNat - 97 + 10
  else if 'A' ≤ c && c ≤ 'F' then c.toNat - 65 + 10
  else 0

/-- Canonical decimal rendering of a natural number, fuelled so that it is
structurally recursive (the fuel `n + 1` always suffices). -/
def natToCharsAux : Nat → Nat → List Char
  | 0, _ => []
  | fuel + 1, n =>
    if n < 10 then [decDigitChar n]
    else natToCharsAux fuel (n / 10) ++ [decDigitChar (n % 10)]

/-- Canonical decimal rendering of a natural number (no leading zeros). -/
def natToChars (n : Nat) : List Char := natToCharsAux (n + 1) n

/-- Canonical decimal rendering of an integer, as serde_json prints an
`i32`. -/
def intToChars (v : Int) : List Char :=
  if v < 0 then '-' :: natToChars (-v).toNat else natToChars v.toNat

/-- Numeric value of a list of decimal digit characters. -/
def digitsToNat (l : List Char) : Nat :=
  l.foldl (fun a c => 10 * a + (c.toNat - 48)) 0

/-- serde_json's escaping of one character inside a JSON string literal:
quote and backslash get two-character escapes, control characters get the
short escapes `\b \t \n \f \r` or a `\u00xx` escape, everything else is
emitted raw. -/
def escapeChar (c : Char) : List Char :=
  if c = '"' then ['\\', '"']
  else if c = '\\' then ['\\', '\\']
  else if c = '\x08' then ['\\', 'b']
  else if c = '\x09' then ['\\', 't']
  else if c = '\x0a' then ['\\', 'n']
  else if c = '\x0c' then ['\\', 'f']
  else if c = '\x0d' then ['\\', 'r']
  else if c.toNat < 32 then
    ['\\', 'u', '0', '0', hexDigitChar (c.toNat / 16), hexDigitChar (c.toNat % 16)]
  else [c]

/-- serde_json's rendering of a string value, quotes included. -/
def encodeJsonString (s : List Char) : List Char :=
  '"' :: (s.flatMap escapeChar ++ ['"'])

/-- serde_json's rendering of the clock array. -/
def encodeClock (l : List Int) : List Char :=
  '[' :: (List.intercalate [','] (l.map intToChars) ++ [']'])

/-- The characters of the `sender_id` field name. -/
def senderKey : List Char := "sender_id".toList

/-- The characters of the `clock` field name. -/
def clockKey : List Char := "clock".toList

/-- `serde_json::to_string(&msg)` for a `ServerMessage` (from
`Server::send_event`): `\x7b"sender_id":<string>,"clock":<array>\x7d`, fields in
declaration order, no extra whitespace. -/
def encodeMessage (m : ServerMessage) : List Char :=
  '\x7b' :: (encodeJsonString senderKey ++ [':'] ++
    encodeJsonString m.sender_id.toList ++ [','] ++
    encodeJsonString clockKey ++ [':'] ++
    encodeClock m.clock ++ ['\x7d'])

/-- Demand one specific character at the head of the input. -/
def expectChar (c : Char) : List Char → Option (List Char)
  | [] => none
  | x :: s => if x = c then some s else none

/-- One-character string escapes, inverse to the short forms produced by
`escapeChar` (plus `\/`, which JSON allows although the encoder never
emits it). -/
def simpleUnescape (e : Char) : Option Char :=
  if e = '"' then some '"'
  else if e = '\\' then some '\\'
  else if e = '/' then some '/'
  else if e = 'b' then some '\x08'
  else if e = 't' then some '\x09'
  else if e = 'n' then some '\x0a'
  else if e = 'f' then some '\x0c'
  else if e = 'r' then some '\x0d'
  else none

/-- Parse the body of a JSON string literal, after the opening quote, up to
and including the closing quote.  Unescaped control characters are
rejected, `\uXXXX` escapes below the surrogate range are decoded. -/
def parseStringBody : List Char → Option (List Char × List Char)
  | [] => none
  | c :: s =>
    if c = '"' then some ([], s)
    else if c = '\\' then
      match s with
      | [] => none
      | e :: s2 =>
        if e = 'u' then
          match s2 with
          | h1 :: h2 :: h3 :: h4 :: s3 =>
            if isHexChar h1 && isHexChar h2 && isHexChar h3 && isHexChar h4 then
              let v := ((hexCharVal h1 * 16 + hexCharVal h2) * 16 + hexCharVal h3) * 16
                + hexCharVal h4
              if v < 55296 then
                (parseStringBody s3).map (fun p => (Char.ofNat v :: p.1, p.2))
              else none
            else none
          | _ => none
        else
          match simpleUnescape e with
          | some d => (parseStringBody s2).map (fun p => (d :: p.1, p.2))
          | none => none
    else if c.toNat < 32 then none
    else (parseStringBody s).map (fun p => (c :: p.1, p.2))

/-- Parse a JSON string literal, opening quote included. -/
def parseJsonString (s : List Char) : Option (List Char × List Char) :=
  (expectChar '"' s).bind parseStringBody

/-- Parse a JSON unsigned integer: a nonempty digit run with no leading
zero (as JSON requires). -/
def parseNatTok (s : List Char) : Option (Nat × List Char) :=
  match s.span Char.isDigit with
  | ([], _) => none
  | (d :: ds, rest) =>
    if d = '0' ∧ ds ≠ [] then none
    else some (digitsToNat (d :: ds), rest)

/-- Parse a JSON integer into an `i32`, rejecting values outside the
`i32` range as serde_json does. -/
def parseIntTok (s : List Char) : Option (Int × List Char) :=
  if s.headD ' ' = '-' then
    (parseNatTok s.tail).bind fun p =>
      if p.1 ≤ 2147483648 then some (-(p.1 : Int), p.2) else none
  else
    (parseNatTok s).bind fun p =>
      if p.1 ≤ 2147483647 then some ((p.1 : Int), p.2) else none

/-- Parse the `[i32; 3]` clock value: exactly three integers, as serde's
fixed-size-array deserializer demands (fewer or more elements, or any
other shape, is an error). -/
def parseClock (s : List Char) : Option (List Int × List Char) := do
  let s ← expectChar '[' s
  let (a, s) ← parseIntTok (skipWs s)
  let s ← expectChar ',' (skipWs s)
  let (b, s) ← parseIntTok (skipWs s)
  let s ← expectChar ',' (skipWs s)
  let (c, s) ← parseIntTok (skipWs s)
  let s ← expectChar ']' (skipWs s)
  pure ([a, b, c], s)

/-- Parse the `ServerMessage` object: both fields required, either order,
duplicate or unknown keys rejected. -/
def parseMessage (s : List Char) : Option (ServerMessage × List Char) := do
  let s ← expectChar '\x7b' s
  let (k1, s) ← parseJsonString (skipWs s)
  let s ← expectChar ':' (skipWs s)
  if k1 = senderKey then do
    let (sid, s) ← parseJsonString (skipWs s)
    let s ← expectChar ',' (skipWs s)
    let (k2, s) ← parseJsonString (skipWs s)
    if k2 = clockKey then do
      let s ← expectChar ':' (skipWs s)
      let (ck, s) ← parseClock (skipWs s)
      let s ← expectChar '\x7d' (skipWs s)
      pure (ServerMessage.mk (String.mk sid) ck, s)
    else none
  else if k1 = clockKey then do
    let (ck, s) ← parseClock (skipWs s)
    let s ← expectChar ',' (skipWs s)
    let (k2, s) ← parseJsonString (skipWs s)
    if k2 = senderKey then do
      let s ← expectChar ':' (skipWs s)
      let (sid, s) ← parseJsonString (skipWs s)
      let s ← expectChar '\x7d' (skipWs s)
      pure (ServerMessage.mk (String.mk sid) ck, s)
    else none
  else none

/-- The typed decode failures: a shape/syntax violation, or leftover
non-whitespace input after the value (serde_json's "trailing characters"
error). -/
inductive DecodeError where
  | malformedSyntax : DecodeError
  | trailingChars : DecodeError
deriving DecidableEq, Repr

instance : DecidableEq (Except DecodeError ServerMessage) := fun x y =>
  match x, y with
  | .ok a, .ok b =>
    if h : a = b then isTrue (by rw [h]) else isFalse (by simp [h])
  | .error a, .error b =>
    if h : a = b then isTrue (by rw [h]) else isFalse (by simp [h])
  | .ok _, .error _ => isFalse (by simp)
  | .error _, .ok _ => isFalse (by simp)

/-- `serde_json::from_slice::<ServerMessage>`: parse one JSON value, then
demand that only whitespace remains.  Always returns a typed result,
never panics. -/
def decodeMessage (s : List Char) : Except DecodeError ServerMessage :=
  match parseMessage (skipWs s) with
  | none => .error .malformedSyntax
  | some (m, rest) => if skipWs rest = [] then .ok m else .error .trailingChars

/-! ## The inbound path (from `Server::handle_events` in `src/main.rs`) -/

/-- The 1024-byte zero-initialised read buffer of `Server::handle_events`:
the payload followed by the remaining NUL bytes, all of which are handed
to `serde_json::from_slice`. -/
def readBuffer (payload : List Char) : List Char :=
  payload ++ List.replicate (1024 - payload.length) (Char.ofNat 0)

/-- Outcome of a Rust expression that either produces a value or panics
(`unwrap` / `expect`). -/
inductive PanicOr (α : Type) where
  | panicked (msg : String) : PanicOr α
  | ok (a : α) : PanicOr α
deriving DecidableEq, Repr

/-- The decode step of `Server::handle_events`:
`serde_json::from_slice(&buffer).expect("cannot deserialize message")` —
a decode failure becomes a panic. -/
def decodeStep (buffer : List Char) : PanicOr ServerMessage :=
  match decodeMessage buffer with
  | .ok m => .ok m
  | .error _ => .panicked "cannot deserialize message"

/-- What one `listener.accept()` call can produce: a connection carrying a
payload, a `WouldBlock` error (no pending connection on the non-blocking
listener), or some other accept error. -/
inductive AcceptOutcome where
  | conn (payload : List Char) : AcceptOutcome
  | wouldBlock : AcceptOutcome
  | otherErr : AcceptOutcome
deriving DecidableEq, Repr

/-- Why `Server::handle_events` stopped (or, for `traceExhausted`, the
finite observation window ended with the loop still running). -/
inductive LoopExit where
  | shutdownSignaled : LoopExit
  | brokeOnWouldBlock : LoopExit
  | panicked (msg : String) : LoopExit
  | traceExhausted : LoopExit
deriving DecidableEq, Repr

/-- `Server::handle_events`, driven by a finite trace.  Each trace element
pairs the value of the shutdown flag read at the top of the iteration with
the outcome of that iteration's `accept` call.  A connection's payload is
read into the 1024-byte buffer and decoded with `.expect` (panic on
failure), then merged via `Server::update_clock`; `WouldBlock` breaks the
loop; any other accept error is printed and the loop continues. -/
def handle_events (own : Nat) (c : VClock) :
    List (Bool × AcceptOutcome) → LoopExit × VClock
  | [] => (.traceExhausted, c)
  | (sd, outcome) :: rest =>
    if sd then (.shutdownSignaled, c)
    else
      match outcome with
      | .conn payload =>
        match decodeStep (readBuffer payload) with
        | .panicked msg => (.panicked msg, c)
        | .ok m => handle_events own (update_clock own c m.clock) rest
      | .wouldBlock => (.brokeOnWouldBlock, c)
      | .otherErr => handle_events own c rest

/-! ## The send path (from `Server::send_event` in `src/main.rs`) -/

/-- Outcome of `Server::send_event`: either the message was written (and
carries the transmitted snapshot), or an `unwrap` on the connect or write
result panicked.  Both outcomes record the server's clock afterwards. -/
inductive SendOutcome where
  | panicked (msg : String) (clock : VClock) : SendOutcome
  | sent (msg : ServerMessage) (clock : VClock) : SendOutcome
deriving DecidableEq, Repr

/-- `Server::send_event`: `self.increment()` first, then build the
`ServerMessage` from the incremented clock, then
`TcpStream::connect(..).unwrap()` and `write_all(..).unwrap()` — the two
network results are oracle inputs, and a failure of either is a panic,
with the increment already applied. -/
def send_event (own : Nat) (c : VClock) (id : String)
    (connectOk writeOk : Bool) : SendOutcome :=
  let c2 := increment own c
  let m : ServerMessage := ServerMessage.mk id c2
  if connectOk then
    if writeOk then .sent m c2 else .panicked "failed to write message" c2
  else .panicked "failed to connect" c2

/-- A concrete message used by the closed witness theorems. -/
def msgEx : ServerMessage := ServerMessage.mk "server1" [4, 5, 0]

/-- A concrete malformed payload: a two-entry clock (the spec's own
malformed-input example at N = 3). -/
def malformedPayloadEx : List Char :=
  "\x7b\"sender_id\":\"server2\",\"clock\":[1,2]\x7d".toList

/-- A concrete well-formed wire payload, as text. -/
def jsonEx : List Char :=
  "\x7b\"sender_id\":\"server1\",\"clock\":[4,5,0]\x7d".toList

/-! ## Helper lemmas: clock operations -/

theorem increment_length (own : Nat) (c : VClock) :
    (increment own c).length = c.length := by
  simp [increment]

theorem mergeMax_length (c other : VClock) (hc : c.length = 3)
    (ho : other.length = 3) : (mergeMax c other).length = 3 := by
  simp [mergeMax, hc, ho]

theorem update_clock_length (own : Nat) (c other : VClock)
    (hc : c.length = 3) (ho : other.length = 3) :
    (update_clock own c other).length = 3 := by
  simp [update_clock, increment_length, mergeMax_length, hc, ho]

theorem getD_ge_three (c : VClock) (hc : c.length = 3) {i : Nat}
    (hi : 3 ≤ i) : c.getD i 0 = 0 := by
  apply List.getD_eq_default
  omega

theorem increment_getD_own (own : Nat) (c : VClock) (hown : own < c.length) :
    (increment own c).getD own 0 = c.getD own 0 + 1 := by
  simp [increment, List.getD_eq_getElem?_getD]
  rw [List.getElem?_set_self (by omega)]
  simp [List.getElem?_eq_getElem hown]

theorem increment_getD_other (own : Nat) (c : VClock) {i : Nat}
    (hne : i ≠ own) : (increment own c).getD i 0 = c.getD i 0 := by
  simp [increment, List.getD_eq_getElem?_getD]
  rw [List.getElem?_set_ne (by omega)]

theorem mergeMax_getD (c other : VClock) (hc : c.length = 3)
    (ho : other.length = 3) {i : Nat} (hi : i < 3) :
    (mergeMax c other).getD i 0 = max (c.getD i 0) (other.getD i 0) := by
  have hi' : i < (List.zipWith max c other).length := by
    simp [hc, ho]; omega
  simp [mergeMax, List.getD_eq_getElem?_getD, List.getElem?_eq_getElem,
    hi', List.getElem_zipWith, hc.symm ▸ hi, ho.symm ▸ hi]

theorem applyOp_length (own : Nat) (c : VClock) (op : ClockOp)
    (hc : c.length = 3) (hop : opWellFormed op) :
    (applyOp own c op).length = 3 := by
  cases op with
  | localEvent => simp [applyOp, increment_length, hc]
  | mergeReceived remote =>
    exact update_clock_length own c remote hc hop

theorem le_applyOp (own : Nat) (c : VClock) (op : ClockOp)
    (hown : own < 3) (hc : c.length = 3) (hop : opWellFormed op) :
    ∀ i, c.getD i 0 ≤ (applyOp own c op).getD i 0 := by
  intro i
  cases op with
  | localEvent =>
    by_cases h : i = own
    · rw [applyOp, h, increment_getD_own own c (by omega)]
      omega
    · rw [applyOp, increment_getD_other own c h]
  | mergeReceived remote =>
    have hr : remote.length = 3 := hop
    by_cases h : i = own
    · rw [applyOp, h, update_clock,
        increment_getD_own own _ (by rw [mergeMax_length c remote hc hr]; omega),
        mergeMax_getD c remote hc hr hown]
      have := le_max_left (c.getD own 0) (remote.getD own 0)
      omega
    · rw [applyOp, update_clock, increment_getD_other own _ h]
      by_cases hi : i < 3
      · rw [mergeMax_getD c remote hc hr hi]
        exact le_max_left _ _
      · rw [getD_ge_three c hc (by omega),
          getD_ge_three _ (mergeMax_length c remote hc hr) (by omega)]

/-! ## Helper lemmas: characters and digits -/

theorem skipWs_cons_not_ws {c : Char} (s : List Char)
    (h : isJsonWs c = false) : skipWs (c :: s) = c :: s := by
  simp [skipWs, h]

theorem isJsonWs_eq_false_of_isDigit {c : Char} (h : c.isDigit = true) :
    isJsonWs c = false := by
  by_cases h1 : c = ' '
  · rw [h1] at h; exact absurd h (by decide)
  by_cases h2 : c = '\t'
  · rw [h2] at h; exact absurd h (by decide)
  by_cases h3 : c = '\n'
  · rw [h3] at h; exact absurd h (by decide)
  by_cases h4 : c = '\r'
  · rw [h4] at h; exact absurd h (by decide)
  simp [isJsonWs, h1, h2, h3, h4]

theorem ne_dash_of_isDigit {c : Char} (h : c.isDigit = true) : ¬(c = '-') := by
  intro he
  rw [he] at h
  exact absurd h (by decide)

theorem decDigitChar_isDigit {d : Nat} (h : d < 10) :
    (decDigitChar d).isDigit = true := by
  interval_cases d <;> decide

theorem decDigitChar_toNat {d : Nat} (h : d < 10) :
    (decDigitChar d).toNat - 48 = d := by
  interval_cases d <;> decide

theorem decDigitChar_eq_zero_iff {d : Nat} (h : d < 10) :
    decDigitChar d = '0' ↔ d = 0 := by
  interval_cases d <;> decide

theorem hexCharVal_hexDigitChar {d : Nat} (h : d < 16) :
    hexCharVal (hexDigitChar d) = d := by
  interval_cases d <;> decide

theorem isHexChar_hexDigitChar {d : Nat} (h : d < 16) :
    isHexChar (hexDigitChar d) = true := by
  interval_cases d <;> decide

/-! ## Helper lemmas: decimal rendering round-trips through parsing -/

theorem natToCharsAux_ne_nil (fuel n : Nat) (h : n < fuel) :
    natToCharsAux fuel n ≠ [] := by
  cases fuel with
  | zero => omega
  | succ fuel =>
    rw [natToCharsAux]
    by_cases h10 : n < 10 <;> simp [h10]

theorem natToCharsAux_all_digits (fuel : Nat) :
    ∀ n, n < fuel → ∀ c ∈ natToCharsAux fuel n, c.isDigit = true := by
  induction fuel with
  | zero => omega
  | succ fuel ih =>
    intro n hn c hc
    rw [natToCharsAux] at hc
    by_cases h10 : n < 10
    · rw [if_pos h10] at hc
      simp only [List.mem_singleton] at hc
      rw [hc]
      exact decDigitChar_isDigit h10
    · rw [if_neg h10] at hc
      rcases List.mem_append.mp hc with hc | hc
      · exact ih (n / 10)
          (by have h' : n / 10 < n := Nat.div_lt_self (by omega) (by omega); omega) c hc
      · simp only [List.mem_singleton] at hc
        rw [hc]
        exact decDigitChar_isDigit (Nat.mod_lt _ (by omega))

theorem digitsToNat_natToCharsAux (fuel : Nat) :
    ∀ n, n < fuel → digitsToNat (natToCharsAux fuel n) = n := by
  induction fuel with
  | zero => omega
  | succ fuel ih =>
    intro n hn
    rw [natToCharsAux]
    by_cases h10 : n < 10
    · rw [if_pos h10]
      simp only [digitsToNat, List.foldl_cons, List.foldl_nil]
      rw [decDigitChar_toNat h10]
      omega
    · have hdiv : n / 10 < fuel := by
        have h' : n / 10 < n := Nat.div_lt_self (by omega) (by omega)
        omega
      rw [if_neg h10]
      have hrec := ih (n / 10) hdiv
      simp only [digitsToNat, List.foldl_append, List.foldl_cons,
        List.foldl_nil] at hrec ⊢
      rw [hrec, decDigitChar_toNat (Nat.mod_lt _ (by omega))]
      omega

theorem natToCharsAux_head_zero (fuel : Nat) :
    ∀ n c t, n < fuel → natToCharsAux fuel n = c :: t → c = '0' → n = 0 := by
  induction fuel with
  | zero => omega
  | succ fuel ih =>
    intro n c t hn hct h0
    rw [natToCharsAux] at hct
    by_cases h10 : n < 10
    · rw [if_pos h10] at hct
      injection hct with hc ht
      exact (decDigitChar_eq_zero_iff h10).mp (hc.trans h0)
    · exfalso
      have hdiv : n / 10 < fuel := by
        have h' : n / 10 < n := Nat.div_lt_self (by omega) (by omega)
        omega
      rw [if_neg h10] at hct
      obtain ⟨c0, t0, hsub⟩ : ∃ c0 t0, natToCharsAux fuel (n / 10) = c0 :: t0 := by
        cases hh : natToCharsAux fuel (n / 10) with
        | nil => exact absurd hh (natToCharsAux_ne_nil fuel (n / 10) hdiv)
        | cons c0 t0 => exact ⟨c0, t0, rfl⟩
      rw [hsub, List.cons_append] at hct
      injection hct with hc0 ht0
      have : n / 10 = 0 := ih (n / 10) c0 t0 hdiv hsub (hc0.trans h0)
      omega

theorem natToChars_ne_nil (n : Nat) : natToChars n ≠ [] :=
  natToCharsAux_ne_nil (n + 1) n (by omega)

theorem natToChars_all_digits (n : Nat) :
    ∀ c ∈ natToChars n, c.isDigit = true :=
  natToCharsAux_all_digits (n + 1) n (by omega)

theorem digitsToNat_natToChars (n : Nat) : digitsToNat (natToChars n) = n :=
  digitsToNat_natToCharsAux (n + 1) n (by omega)

theorem natToChars_head_zero {n : Nat} {c : Char} {t : List Char}
    (hct : natToChars n = c :: t) (h0 : c = '0') : n = 0 :=
  natToCharsAux_head_zero (n + 1) n c t (by omega) hct h0

theorem natToChars_cons (n : Nat) : ∃ c t, natToChars n = c :: t := by
  cases h : natToChars n with
  | nil => exact absurd h (natToChars_ne_nil n)
  | cons c t => exact ⟨c, t, rfl⟩

/-! ## Helper lemmas: span and token parsing -/

theorem takeWhile_dropWhile_append (p : Char → Bool) (l rest : List Char)
    (hl : ∀ c ∈ l, p c = true)
    (hrest : ∀ c, rest.head? = some c → p c = false) :
    (l ++ rest).takeWhile p = l ∧ (l ++ rest).dropWhile p = rest := by
  induction l with
  | nil =>
    simp only [List.nil_append]
    cases rest with
    | nil => simp
    | cons r rs =>
      have hr := hrest r rfl
      simp [List.takeWhile_cons, List.dropWhile_cons, hr]
  | cons a l ih =>
    have hpa := hl a (by simp)
    have hrec := ih (fun c hc => hl c (by simp [hc]))
    simp only [List.cons_append, List.takeWhile_cons, List.dropWhile_cons, hpa,
      if_pos]
    exact ⟨by rw [hrec.1], by rw [hrec.2]⟩

theorem span_append (p : Char → Bool) (l rest : List Char)
    (hl : ∀ c ∈ l, p c = true)
    (hrest : ∀ c, rest.head? = some c → p c = false) :
    (l ++ rest).span p = (l, rest) := by
  rw [List.span_eq_take_drop]
  have h := takeWhile_dropWhile_append p l rest hl hrest
  rw [h.1, h.2]

theorem head_not_digit_cons (c : Char) (h : c.isDigit = false)
    (s : List Char) : ∀ x, (c :: s : List Char).head? = some x → x.isDigit = false := by
  intro x hx
  simp only [List.head?_cons, Option.some.injEq] at hx
  rw [← hx]
  exact h

theorem parseNatTok_natToChars (n : Nat) (rest : List Char)
    (hrest : ∀ c, rest.head? = some c → c.isDigit = false) :
    parseNatTok (natToChars n ++ rest) = some (n, rest) := by
  obtain ⟨c, t, hct⟩ := natToChars_cons n
  have hspan : (natToChars n ++ rest).span Char.isDigit = (natToChars n, rest) :=
    span_append _ _ _ (natToChars_all_digits n) hrest
  rw [parseNatTok, hspan, hct]
  show (if c = '0' ∧ t ≠ [] then (none : Option (Nat × List Char))
    else some (digitsToNat (c :: t), rest)) = some (n, rest)
  have hifs : ¬(c = '0' ∧ t ≠ []) := by
    rintro ⟨h0, htne⟩
    have hn0 : n = 0 := natToChars_head_zero hct h0
    rw [hn0] at hct
    have hct' : (['0'] : List Char) = c :: t := hct
    injection hct' with hc ht
    exact htne ht.symm
  rw [if_neg hifs, ← hct, digitsToNat_natToChars]

theorem parseIntTok_intToChars (v : Int) (rest : List Char)
    (hlo : -2147483648 ≤ v) (hhi : v ≤ 2147483647)
    (hrest : ∀ c, rest.head? = some c → c.isDigit = false) :
    parseIntTok (intToChars v ++ rest) = some (v, rest) := by
  by_cases hneg : v < 0
  · rw [intToChars, if_pos hneg, List.cons_append, parseIntTok]
    rw [List.headD_cons, if_pos rfl, List.tail_cons,
      parseNatTok_natToChars (-v).toNat rest hrest]
    show (if (-v).toNat ≤ 2147483648 then some (-(((-v).toNat : Nat) : Int), rest)
      else none) = some (v, rest)
    rw [if_pos (by omega)]
    have h1 : (((-v).toNat : Nat) : Int) = -v := Int.toNat_of_nonneg (by omega)
    rw [h1, neg_neg]
  · rw [intToChars, if_neg hneg]
    obtain ⟨c, t, hct⟩ := natToChars_cons v.toNat
    have hdig : c.isDigit = true :=
      natToChars_all_digits v.toNat c (by rw [hct]; simp)
    rw [hct, List.cons_append, parseIntTok]
    rw [List.headD_cons, if_neg (ne_dash_of_isDigit hdig), ← List.cons_append,
      ← hct, parseNatTok_natToChars v.toNat rest hrest]
    show (if v.toNat ≤ 2147483647 then some (((v.toNat : Nat) : Int), rest)
      else none) = some (v, rest)
    rw [if_pos (by omega)]
    have h1 : ((v.toNat : Nat) : Int) = v := Int.toNat_of_nonneg (by omega)
    rw [h1]

theorem skipWs_intToChars_append (v : Int) (rest : List Char) :
    skipWs (intToChars v ++ rest) = intToChars v ++ rest := by
  by_cases hneg : v < 0
  · rw [intToChars, if_pos hneg, List.cons_append]
    exact skipWs_cons_not_ws _ (by decide)
  · rw [intToChars, if_neg hneg]
    obtain ⟨c, t, hct⟩ := natToChars_cons v.toNat
    have hdig : c.isDigit = true :=
      natToChars_all_digits v.toNat c (by rw [hct]; simp)
    rw [hct, List.cons_append]
    exact skipWs_cons_not_ws _ (isJsonWs_eq_false_of_isDigit hdig)

/-! ## Helper lemmas: string escaping round-trips through parsing -/

theorem parseStringBody_escape (b rest : List Char) :
    parseStringBody (b.flatMap escapeChar ++ '"' :: rest) = some (b, rest) := by
  induction b with
  | nil =>
    simp only [List.flatMap_nil, List.nil_append]
    unfold parseStringBody
    simp
  | cons c b ih =>
    rw [List.flatMap_cons, List.append_assoc]
    by_cases h1 : c = '"'
    · rw [h1]
      show parseStringBody ('\\' :: '"' :: _) = _
      unfold parseStringBody
      simp [simpleUnescape, ih]
    by_cases h2 : c = '\\'
    · rw [h2]
      show parseStringBody ('\\' :: '\\' :: _) = _
      unfold parseStringBody
      simp [simpleUnescape, ih]
    by_cases h3 : c = '\x08'
    · rw [h3]
      show parseStringBody ('\\' :: 'b' :: _) = _
      unfold parseStringBody
      simp [simpleUnescape, ih]
    by_cases h4 : c = '\x09'
    · rw [h4]
      show parseStringBody ('\\' :: 't' :: _) = _
      unfold parseStringBody
      simp [simpleUnescape, ih]
    by_cases h5 : c = '\x0a'
    · rw [h5]
      show parseStringBody ('\\' :: 'n' :: _) = _
      unfold parseStringBody
      simp [simpleUnescape, ih]
    by_cases h6 : c = '\x0c'
    · rw [h6]
      show parseStringBody ('\\' :: 'f' :: _) = _
      unfold parseStringBody
      simp [simpleUnescape, ih]
    by_cases h7 : c = '\x0d'
    · rw [h7]
      show parseStringBody ('\\' :: 'r' :: _) = _
      unfold parseStringBody
      simp [simpleUnescape, ih]
    by_cases h8 : c.toNat < 32
    · rw [escapeChar, if_neg h1, if_neg h2, if_neg h3, if_neg h4, if_neg h5,
        if_neg h6, if_neg h7, if_pos h8]
      have hd1 : c.toNat / 16 < 16 := by omega
      have hd2 : c.toNat % 16 < 16 := Nat.mod_lt _ (by omega)
      have hv : ((hexCharVal '0' * 16 + hexCharVal '0') * 16
          + hexCharVal (hexDigitChar (c.toNat / 16))) * 16
          + hexCharVal (hexDigitChar (c.toNat % 16)) = c.toNat := by
        rw [hexCharVal_hexDigitChar hd1, hexCharVal_hexDigitChar hd2]
        have h0 : hexCharVal '0' = 0 := by decide
        rw [h0]
        omega
      have hlt : c.toNat < 55296 := by omega
      show parseStringBody ('\\' :: 'u' :: '0' :: '0' :: _ :: _ :: _) = _
      unfold parseStringBody
      simp [isHexChar_hexDigitChar hd1, isHexChar_hexDigitChar hd2,
        hv, hlt, Char.ofNat_toNat, ih,
        show isHexChar '0' = true from by decide]
    · rw [escapeChar, if_neg h1, if_neg h2, if_neg h3, if_neg h4, if_neg h5,
        if_neg h6, if_neg h7, if_neg h8, List.singleton_append]
      unfold parseStringBody
      rw [if_neg h1, if_neg h2, if_neg h8, ih]
      rfl

theorem parseJsonString_encode (b rest : List Char) :
    parseJsonString (encodeJsonString b ++ rest) = some (b, rest) := by
  rw [encodeJsonString, List.cons_append, List.append_assoc,
    List.singleton_append]
  simp [parseJsonString, expectChar, parseStringBody_escape]

/-! ## Helper lemmas: clock array and whole-message round-trips -/

theorem encodeClock_three (a b c : Int) :
    encodeClock [a, b, c]
      = '[' :: (intToChars a ++ ',' :: (intToChars b ++ ',' :: (intToChars c ++ [']']))) := by
  simp [encodeClock, List.intercalate, List.intersperse]

theorem skipWs_encodeJsonString_append (b X : List Char) :
    skipWs (encodeJsonString b ++ X) = encodeJsonString b ++ X := by
  rw [encodeJsonString, List.cons_append]
  exact skipWs_cons_not_ws _ (by decide)

theorem skipWs_encodeClock_append (l : List Int) (X : List Char) :
    skipWs (encodeClock l ++ X) = encodeClock l ++ X := by
  rw [encodeClock, List.cons_append]
  exact skipWs_cons_not_ws _ (by decide)

theorem parseClock_encode (a b c : Int) (rest : List Char)
    (ha1 : -2147483648 ≤ a) (ha2 : a ≤ 2147483647)
    (hb1 : -2147483648 ≤ b) (hb2 : b ≤ 2147483647)
    (hc1 : -2147483648 ≤ c) (hc2 : c ≤ 2147483647) :
    parseClock (encodeClock [a, b, c] ++ rest) = some ([a, b, c], rest) := by
  rw [encodeClock_three]
  simp only [List.cons_append, List.append_assoc, List.singleton_append]
  have hA := parseIntTok_intToChars a
    (',' :: (intToChars b ++ ',' :: (intToChars c ++ ']' :: rest))) ha1 ha2
    (head_not_digit_cons ',' (by decide) _)
  have hB := parseIntTok_intToChars b
    (',' :: (intToChars c ++ ']' :: rest)) hb1 hb2
    (head_not_digit_cons ',' (by decide) _)
  have hC := parseIntTok_intToChars c (']' :: rest) hc1 hc2
    (head_not_digit_cons ']' (by decide) _)
  have s1 := skipWs_intToChars_append a
    (',' :: (intToChars b ++ ',' :: (intToChars c ++ ']' :: rest)))
  have s2 := skipWs_cons_not_ws (intToChars b ++ ',' :: (intToChars c ++ ']' :: rest))
    (show isJsonWs ',' = false from by decide)
  have s3 := skipWs_intToChars_append b (',' :: (intToChars c ++ ']' :: rest))
  have s4 := skipWs_cons_not_ws (intToChars c ++ ']' :: rest)
    (show isJsonWs ',' = false from by decide)
  have s5 := skipWs_intToChars_append c (']' :: rest)
  have s6 := skipWs_cons_not_ws rest (show isJsonWs ']' = false from by decide)
  simp [parseClock, expectChar, hA, hB, hC, s1, s2, s3, s4, s5, s6]

theorem string_mk_toList (s : String) : String.mk s.toList = s := by
  cases s
  rfl

theorem parseMessage_encode (m : ServerMessage) (rest : List Char)
    (hwf : msgWellFormed m) :
    parseMessage (encodeMessage m ++ rest) = some (m, rest) := by
  obtain ⟨hl, hr⟩ := hwf
  obtain ⟨a, b, c, hclock⟩ := List.length_eq_three.mp hl
  have hra := hr a (by rw [hclock]; simp)
  have hrb := hr b (by rw [hclock]; simp)
  have hrc := hr c (by rw [hclock]; simp)
  rw [encodeMessage, hclock]
  simp only [List.cons_append, List.append_assoc, List.singleton_append]
  have k1 := parseJsonString_encode senderKey
    (':' :: (encodeJsonString m.sender_id.data ++ (',' :: (encodeJsonString clockKey
      ++ (':' :: (encodeClock [a, b, c] ++ ('\x7d' :: rest)))))))
  have k2 := parseJsonString_encode m.sender_id.data
    (',' :: (encodeJsonString clockKey
      ++ (':' :: (encodeClock [a, b, c] ++ ('\x7d' :: rest)))))
  have k3 := parseJsonString_encode clockKey
    (':' :: (encodeClock [a, b, c] ++ ('\x7d' :: rest)))
  have kc := parseClock_encode a b c ('\x7d' :: rest) hra.1 hra.2 hrb.1 hrb.2
    hrc.1 hrc.2
  have w1 := skipWs_encodeJsonString_append senderKey
    (':' :: (encodeJsonString m.sender_id.data ++ (',' :: (encodeJsonString clockKey
      ++ (':' :: (encodeClock [a, b, c] ++ ('\x7d' :: rest)))))))
  have w2 := skipWs_cons_not_ws (encodeJsonString m.sender_id.data
      ++ (',' :: (encodeJsonString clockKey
        ++ (':' :: (encodeClock [a, b, c] ++ ('\x7d' :: rest))))))
    (show isJsonWs ':' = false from by decide)
  have w3 := skipWs_encodeJsonString_append m.sender_id.data
    (',' :: (encodeJsonString clockKey
      ++ (':' :: (encodeClock [a, b, c] ++ ('\x7d' :: rest)))))
  have w4 := skipWs_cons_not_ws (encodeJsonString clockKey
      ++ (':' :: (encodeClock [a, b, c] ++ ('\x7d' :: rest))))
    (show isJsonWs ',' = false from by decide)
  have w5 := skipWs_encodeJsonString_append clockKey
    (':' :: (encodeClock [a, b, c] ++ ('\x7d' :: rest)))
  have w6 := skipWs_cons_not_ws (encodeClock [a, b, c] ++ ('\x7d' :: rest))
    (show isJsonWs ':' = false from by decide)
  have w7 := skipWs_encodeClock_append ([a, b, c] : List Int) ('\x7d' :: rest)
  have w8 := skipWs_cons_not_ws rest (show isJsonWs '\x7d' = false from by decide)
  simp [parseMessage, expectChar, k1, k2, k3, kc, w1, w2, w3, w4, w5, w6, w7, w8]
  rw [← hclock]

theorem parseIntTok_range {s : List Char} {v : Int} {r : List Char}
    (h : parseIntTok s = some (v, r)) :
    -2147483648 ≤ v ∧ v ≤ 2147483647 := by
  rw [parseIntTok] at h
  split at h
  · rcases hp : parseNatTok s.tail with _ | p
    · rw [hp] at h; simp at h
    · rw [hp] at h
      simp only [Option.some_bind] at h
      split at h
      · simp only [Option.some.injEq, Prod.mk.injEq] at h
        obtain ⟨hv, -⟩ := h
        rename_i hle
        omega
      · simp at h
  · rcases hp : parseNatTok s with _ | p
    · rw [hp] at h; simp at h
    · rw [hp] at h
      simp only [Option.some_bind] at h
      split at h
      · simp only [Option.some.injEq, Prod.mk.injEq] at h
        obtain ⟨hv, -⟩ := h
        rename_i hle
        omega
      · simp at h

theorem parseClock_shape {s : List Char} {l : List Int} {r : List Char}
    (h : parseClock s = some (l, r)) :
    l.length = 3 ∧ ∀ v ∈ l, -2147483648 ≤ v ∧ v ≤ 2147483647 := by
  simp only [parseClock, bind, Option.bind_eq_some] at h
  obtain ⟨s1, -, h⟩ := h
  obtain ⟨⟨a, s2⟩, ha, h⟩ := h
  obtain ⟨s3, -, h⟩ := h
  obtain ⟨⟨b, s4⟩, hb, h⟩ := h
  obtain ⟨s5, -, h⟩ := h
  obtain ⟨⟨c, s6⟩, hc, h⟩ := h
  obtain ⟨s7, -, h⟩ := h
  simp only [Option.pure_def, Option.some.injEq, Prod.mk.injEq] at h
  obtain ⟨hm, -⟩ := h
  rw [← hm]
  refine ⟨rfl, ?_⟩
  intro v hv
  simp only [List.mem_cons, List.not_mem_nil, or_false] at hv
  rcases hv with hv | hv | hv
  · exact hv ▸ parseIntTok_range ha
  · exact hv ▸ parseIntTok_range hb
  · exact hv ▸ parseIntTok_range hc

theorem parseMessage_shape {s : List Char} {m : ServerMessage} {r : List Char}
    (h : parseMessage s = some (m, r)) :
    m.clock.length = 3 ∧ ∀ v ∈ m.clock, -2147483648 ≤ v ∧ v ≤ 2147483647 := by
  simp only [parseMessage, bind, Option.bind_eq_some] at h
  obtain ⟨s1, -, h⟩ := h
  obtain ⟨⟨k1, s2⟩, -, h⟩ := h
  obtain ⟨s3, -, h⟩ := h
  split at h
  · simp only [bind, Option.bind_eq_some] at h
    obtain ⟨⟨sid, s4⟩, -, h⟩ := h
    obtain ⟨s5, -, h⟩ := h
    obtain ⟨⟨k2, s6⟩, -, h⟩ := h
    split at h
    · simp only [bind, Option.bind_eq_some] at h
      obtain ⟨s7, -, h⟩ := h
      obtain ⟨⟨ck, s8⟩, hck, h⟩ := h
      obtain ⟨s9, -, h⟩ := h
      simp only [Option.pure_def, Option.some.injEq, Prod.mk.injEq] at h
      obtain ⟨hm, -⟩ := h
      have hshape := parseClock_shape hck
      rw [← hm]
      exact hshape
    · simp at h
  · split at h
    · simp only [bind, Option.bind_eq_some] at h
      obtain ⟨⟨ck, s4⟩, hck, h⟩ := h
      obtain ⟨s5, -, h⟩ := h
      obtain ⟨⟨k2, s6⟩, -, h⟩ := h
      split at h
      · simp only [bind, Option.bind_eq_some] at h
        obtain ⟨s7, -, h⟩ := h
        obtain ⟨⟨sid, s8⟩, -, h⟩ := h
        obtain ⟨s9, -, h⟩ := h
        simp only [Option.pure_def, Option.some.injEq, Prod.mk.injEq] at h
        obtain ⟨hm, -⟩ := h
        have hshape := parseClock_shape hck
        rw [← hm]
        exact hshape
      · simp at h
    · simp at h

theorem decodeMessage_encode_append (m : ServerMessage) (rest : List Char)
    (hwf : msgWellFormed m) :
    decodeMessage (encodeMessage m ++ rest)
      = if skipWs rest = [] then .ok m else .error .trailingChars := by
  have hs : skipWs (encodeMessage m ++ rest) = encodeMessage m ++ rest := by
    rw [encodeMessage, List.cons_append]
    exact skipWs_cons_not_ws _ (by decide)
  unfold decodeMessage
  rw [hs, parseMessage_encode m rest hwf]

/-- C1: for every pre-state and every remote clock of length 3, after
`update_clock` (the model of `mergeReceived`) every index other than the
own index holds `max(pre[i], remote[i])`, and the own index holds
`max(pre[own], remote[own]) + 1` — point-wise max first, then exactly one
local increment. -/
theorem merge_is_pointwise_max_then_increment (own : Nat)
    (pre remote : VClock) (hown : own < 3) (hp : pre.length = 3)
    (hr : remote.length = 3) :
    (∀ i, i < 3 → i ≠ own →
      (update_clock own pre remote).getD i 0
        = max (pre.getD i 0) (remote.getD i 0)) ∧
    (update_clock own pre remote).getD own 0
      = max (pre.getD own 0) (remote.getD own 0) + 1 := by
  constructor
  · intro i hi hne
    rw [update_clock, increment_getD_other own _ hne,
      mergeMax_getD pre remote hp hr hi]
  · rw [update_clock,
      increment_getD_own own _ (by rw [mergeMax_length pre remote hp hr]; omega),
      mergeMax_getD pre remote hp hr hown]

/-- Witness for C1 at the spec's scenario: own index 0, pre-state
`[2,0,0]`, remote `[0,5,0]`. -/
theorem merge_is_pointwise_max_then_increment_witness :
    (∀ i, i < 3 → i ≠ 0 →
      (update_clock 0 [2, 0, 0] [0, 5, 0]).getD i 0
        = max (([2, 0, 0] : VClock).getD i 0) (([0, 5, 0] : VClock).getD i 0)) ∧
    (update_clock 0 [2, 0, 0] [0, 5, 0]).getD 0 0
      = max (([2, 0, 0] : VClock).getD 0 0) (([0, 5, 0] : VClock).getD 0 0) + 1 :=
  merge_is_pointwise_max_then_increment 0 [2, 0, 0] [0, 5, 0]
    (by decide) (by decide) (by decide)

/-- C2: across any sequence of `localEvent` / `mergeReceived` calls
(each remote clock having the length the Rust array type forces), no
entry of the vector clock ever decreases. -/
theorem clock_monotonic (ops : List ClockOp) (own : Nat) (c : VClock)
    (hown : own < 3) (hc : c.length = 3)
    (hops : ∀ op ∈ ops, opWellFormed op) :
    ∀ i, c.getD i 0 ≤ (runOps own c ops).getD i 0 := by
  induction ops generalizing c with
  | nil => intro i; simp [runOps]
  | cons op ops ih =>
    intro i
    have h1 := le_applyOp own c op hown hc (hops op (by simp))
    have h2 := ih (applyOp own c op)
      (applyOp_length own c op hc (hops op (by simp)))
      (fun o ho => hops o (by simp [ho]))
    calc c.getD i 0 ≤ (applyOp own c op).getD i 0 := h1 i
      _ ≤ (runOps own (applyOp own c op) ops).getD i 0 := h2 i

/-- Witness for C2: a local event followed by a merge of `[0,5,0]`,
starting from `[1,0,0]` at own index 0. -/
theorem clock_monotonic_witness :
    ([1, 0, 0] : VClock).getD 0 0
      ≤ (runOps 0 [1, 0, 0] [ClockOp.localEvent,
          ClockOp.mergeReceived [0, 5, 0]]).getD 0 0 ∧
    ([1, 0, 0] : VClock).getD 1 0
      ≤ (runOps 0 [1, 0, 0] [ClockOp.localEvent,
          ClockOp.mergeReceived [0, 5, 0]]).getD 1 0 ∧
    ([1, 0, 0] : VClock).getD 2 0
      ≤ (runOps 0 [1, 0, 0] [ClockOp.localEvent,
          ClockOp.mergeReceived [0, 5, 0]]).getD 2 0 :=
  ⟨clock_monotonic [ClockOp.localEvent, ClockOp.mergeReceived [0, 5, 0]]
      0 [1, 0, 0] (by decide) (by decide) (by decide) 0,
    clock_monotonic [ClockOp.localEvent, ClockOp.mergeReceived [0, 5, 0]]
      0 [1, 0, 0] (by decide) (by decide) (by decide) 1,
    clock_monotonic [ClockOp.localEvent, ClockOp.mergeReceived [0, 5, 0]]
      0 [1, 0, 0] (by decide) (by decide) (by decide) 2⟩

/-- C3 counterexample: `mergeReceived` does NOT always increase the own
entry by exactly 1 over its pre-call value.  With own index 0, pre-state
`[1,0,0]` and remote `[5,0,0]`, `update_clock` yields own entry
`max(1,5)+1 = 6`, not `1+1 = 2`. -/
theorem merge_own_entry_not_always_plus_one :
    (update_clock 0 [1, 0, 0] [5, 0, 0]).getD 0 0
      ≠ ([1, 0, 0] : VClock).getD 0 0 + 1 := by decide

/-- C3 amended: `localEvent` increases the own entry by exactly 1;
`mergeReceived` sets the own entry to `max(pre[own], remote[own]) + 1`, so
it strictly increases the own entry (by at least 1), and by exactly 1
relative to the pre-call value precisely when `remote[own] ≤ pre[own]`. -/
theorem own_entry_increase_amended (own : Nat) (pre remote : VClock)
    (hown : own < 3) (hp : pre.length = 3) (hr : remote.length = 3) :
    (increment own pre).getD own 0 = pre.getD own 0 + 1 ∧
    (update_clock own pre remote).getD own 0
      = max (pre.getD own 0) (remote.getD own 0) + 1 ∧
    pre.getD own 0 < (update_clock own pre remote).getD own 0 ∧
    (remote.getD own 0 ≤ pre.getD own 0 →
      (update_clock own pre remote).getD own 0 = pre.getD own 0 + 1) := by
  have hm : (update_clock own pre remote).getD own 0
      = max (pre.getD own 0) (remote.getD own 0) + 1 := by
    rw [update_clock,
      increment_getD_own own _ (by rw [mergeMax_length pre remote hp hr]; omega),
      mergeMax_getD pre remote hp hr hown]
  refine ⟨increment_getD_own own pre (by omega), hm, ?_, ?_⟩
  · rw [hm]
    have := le_max_left (pre.getD own 0) (remote.getD own 0)
    omega
  · intro hle
    rw [hm, max_eq_left hle]

/-- Witness for the amended C3 at own index 0, pre-state `[1,0,0]`,
remote `[5,0,0]` (the counterexample input: the merge increases the own
entry by 5, which is at least 1 but not exactly 1). -/
theorem own_entry_increase_amended_witness :
    (increment 0 [1, 0, 0]).getD 0 0 = ([1, 0, 0] : VClock).getD 0 0 + 1 ∧
    (update_clock 0 [1, 0, 0] [5, 0, 0]).getD 0 0
      = max (([1, 0, 0] : VClock).getD 0 0) (([5, 0, 0] : VClock).getD 0 0) + 1 ∧
    ([1, 0, 0] : VClock).getD 0 0 < (update_clock 0 [1, 0, 0] [5, 0, 0]).getD 0 0 ∧
    (([5, 0, 0] : VClock).getD 0 0 ≤ ([1, 0, 0] : VClock).getD 0 0 →
      (update_clock 0 [1, 0, 0] [5, 0, 0]).getD 0 0
        = ([1, 0, 0] : VClock).getD 0 0 + 1) :=
  own_entry_increase_amended 0 [1, 0, 0] [5, 0, 0]
    (by decide) (by decide) (by decide)

/-- C6 (the code's actual behaviour, contradicting the claim): with the
shutdown flag never signalled, a single `accept` returning `WouldBlock`
(no pending connection) makes `handle_events` exit its loop — the
one-shot poll-and-stop behaviour the spec forbids. -/
theorem accept_loop_exits_on_would_block :
    handle_events 0 [1, 0, 0] [(false, AcceptOutcome.wouldBlock)]
      = (LoopExit.brokeOnWouldBlock, ([1, 0, 0] : VClock)) := by decide

/-- C7 (the code's actual behaviour, contradicting the claim): when the
outbound connect fails, `send_event` panics via `.unwrap()` instead of
reporting a non-fatal error; the clock at the panic is the incremented
one (the increment is indeed not rolled back). -/
theorem send_failure_panics_with_incremented_clock :
    send_event 0 [3, 5, 0] "server1" false true
      = SendOutcome.panicked "failed to connect" ([4, 5, 0] : VClock) ∧
    ([4, 5, 0] : VClock) = increment 0 [3, 5, 0] := by decide

/-- C8: `send_event` increments the own entry first and only then takes
the snapshot placed in the outgoing message: on a successful send the
transmitted clock equals the post-increment clock (and, concretely,
pre-send `[3,5,0]` at own index 0 transmits exactly `[4,5,0]`). -/
theorem transmitted_snapshot_is_post_increment (own : Nat) (c : VClock)
    (id : String) :
    send_event own c id true true
      = SendOutcome.sent (ServerMessage.mk id (increment own c))
          (increment own c) ∧
    increment 0 [3, 5, 0] = ([4, 5, 0] : VClock) :=
  ⟨rfl, by decide⟩

/-- C9: `Server::new` with clock index `k < 3` initialises the clock with
entry 1 at index `k` and 0 elsewhere, so the first local event brings the
own entry to 2. -/
theorem initial_clock_one_at_own_index (k : Nat) (hk : k < 3) :
    (new_clock k).getD k 0 = 1 ∧
    (∀ i, i < 3 → i ≠ k → (new_clock k).getD i 0 = 0) ∧
    (increment k (new_clock k)).getD k 0 = 2 := by
  interval_cases k <;> exact ⟨by decide, by decide, by decide⟩

/-- Witness for C9 at clock index 0 (the index of `server1`). -/
theorem initial_clock_one_at_own_index_witness :
    (new_clock 0).getD 0 0 = 1 ∧
    (∀ i, i < 3 → i ≠ 0 → (new_clock 0).getD i 0 = 0) ∧
    (increment 0 (new_clock 0)).getD 0 0 = 2 :=
  initial_clock_one_at_own_index 0 (by decide)

/-- C4: for every valid `ServerMessage` (a sender identity string plus a
clock of exactly three `i32`-range integer entries), decoding the bytes
produced by encoding it yields an equal message:
`decode(encode(m)) == m`. -/
theorem json_roundtrip (m : ServerMessage) (hwf : msgWellFormed m) :
    decodeMessage (encodeMessage m) = .ok m := by
  have h := decodeMessage_encode_append m [] hwf
  rw [List.append_nil] at h
  rw [h]
  simp [skipWs]

/-- Witness for C4 at the concrete message `server1`, clock `[4,5,0]`. -/
theorem json_roundtrip_witness :
    msgWellFormed msgEx ∧ decodeMessage (encodeMessage msgEx) = .ok msgEx :=
  ⟨by decide, json_roundtrip msgEx (by decide)⟩

/-- C5: `decode` (the model of `serde_json::from_slice`) is total with a
typed result: on every input it either returns a typed decode failure, or
returns a message whose clock has exactly three entries, all within the
`i32` range — it never panics and never returns a partially-populated,
truncated, or zero-filled clock. -/
theorem decode_typed_failure_or_wellformed (s : List Char) :
    (∃ e, decodeMessage s = .error e) ∨
    (∃ m, decodeMessage s = .ok m ∧ m.clock.length = 3 ∧
      ∀ v ∈ m.clock, -2147483648 ≤ v ∧ v ≤ 2147483647) := by
  rcases hp : parseMessage (skipWs s) with _ | ⟨m, rest⟩
  · left
    refine ⟨DecodeError.malformedSyntax, ?_⟩
    unfold decodeMessage
    rw [hp]
  · have hshape := parseMessage_shape hp
    by_cases ht : skipWs rest = []
    · right
      refine ⟨m, ?_, hshape.1, hshape.2⟩
      unfold decodeMessage
      rw [hp]
      show (if skipWs rest = [] then Except.ok m
        else Except.error DecodeError.trailingChars) = Except.ok m
      rw [if_pos ht]
    · left
      refine ⟨DecodeError.trailingChars, ?_⟩
      unfold decodeMessage
      rw [hp]
      show (if skipWs rest = [] then Except.ok m
        else Except.error DecodeError.trailingChars)
        = Except.error DecodeError.trailingChars
      rw [if_neg ht]

/-- C10: `handle_events` reads into a 1024-byte zero-initialised buffer and
hands the whole buffer to the JSON decoder, so every valid encoded message
shorter than 1024 bytes is followed by NUL padding, the decode fails with
a trailing-characters error, and the `.expect` panic branch fires. -/
theorem padded_buffer_decode_panics (m : ServerMessage)
    (hwf : msgWellFormed m) (hlen : (encodeMessage m).length < 1024) :
    decodeStep (readBuffer (encodeMessage m))
      = .panicked "cannot deserialize message" := by
  unfold readBuffer
  obtain ⟨k, hkk⟩ : ∃ k, 1024 - (encodeMessage m).length = k + 1 :=
    ⟨1023 - (encodeMessage m).length, by omega⟩
  rw [hkk, List.replicate_succ]
  have h := decodeMessage_encode_append m
    (Char.ofNat 0 :: List.replicate k (Char.ofNat 0)) hwf
  have hws : skipWs (Char.ofNat 0 :: List.replicate k (Char.ofNat 0))
      = Char.ofNat 0 :: List.replicate k (Char.ofNat 0) :=
    skipWs_cons_not_ws _ (by decide)
  unfold decodeStep
  rw [h, hws, if_neg (List.cons_ne_nil _ _)]

/-- Witness for C10 at the concrete message `server1`, clock `[4,5,0]`
(its encoding is 38 bytes, well under 1024). -/
theorem padded_buffer_decode_panics_witness :
    (msgWellFormed msgEx ∧ (encodeMessage msgEx).length < 1024) ∧
    decodeStep (readBuffer (encodeMessage msgEx))
      = .panicked "cannot deserialize message" :=
  ⟨⟨by decide, by decide⟩,
    padded_buffer_decode_panics msgEx (by decide) (by decide)⟩

end VectorClockServer
